import Mathlib

/-!
Shallow embedding of the hierarchical tabular extraction and
structural-total-inference engine of the canada_immigration_data
repository (extract_pr.py, extract_asylum.py, extract_study.py,
extract_imp_tfw.py, extract_hc.py, extracted_agg.py).

A row of the normalized wide table is modelled as a list of optional
strings, one entry per hierarchy level; `none` is a blank (NaN) cell.
Numeric cells are modelled as integers (the datasets hold counts).
`depth` is, as in the Python sources, the deepest level index, i.e.
`len(hierarchy_cols) - 1`; a row has levels `0 .. depth`.
-/

namespace CanImm

/-- Python's `str.strip()`: drop leading and trailing whitespace
(modelled over the string's character list). -/
def pyStrip (s : String) : String :=
  String.mk (((s.data.dropWhile Char.isWhitespace).reverse.dropWhile
    Char.isWhitespace).reverse)

/-- Python's `str.lower()` on the ASCII labels these sheets contain. -/
def pyLower (s : String) : String := String.mk (s.data.map Char.toLower)

/-- Hierarchy labels of one wide row: entry `m` is the label at level `m`,
`none` meaning a blank (NaN) cell. -/
abbrev Row := List (Option String)

/-- Label of `row` at hierarchy level `m` (`row[hierarchy_cols[m]]`);
out-of-range reads as blank. -/
def levelLabel (row : Row) (m : Nat) : Option String := row.getD m none

/-- `pd.notna(row[hierarchy_cols[m]])`. -/
def hasLabel (row : Row) (m : Nat) : Bool := (levelLabel row m).isSome

/-- `all(pd.isna(row[hierarchy_cols[m]]) for m in range(k + 1, depth + 1))`. -/
def blanksBelow (depth : Nat) (row : Row) (k : Nat) : Bool :=
  (List.range' (k + 1) (depth - k)).all fun m => !(hasLabel row m)

/-- The descending loop `for k in range(depth - 1, -1, -1)` of
`candidate_level`: with fuel `n` it tries levels `n-1, n-2, ..., 0`. -/
def candidateLevelFrom (depth : Nat) (row : Row) : Nat → Option Nat
  | 0 => none
  | k + 1 =>
    if hasLabel row k && blanksBelow depth row k then some k
    else candidateLevelFrom depth row k

/-- `candidate_level(row)` from extract_pr.py / extract_imp_tfw.py /
extract_study.py: the deepest level `k < depth` with a non-blank label at
`k` and blanks at every level in `k+1 .. depth`; `none` when no such
level exists. -/
def candidate_level (depth : Nat) (row : Row) : Option Nat :=
  candidateLevelFrom depth row depth

/-- `tuple(row[hierarchy_cols[:k + 1]].tolist())`: the group key of a row
at levels `0 .. k`. -/
def rowKey (row : Row) (k : Nat) : List (Option String) := row.take (k + 1)

/-- `has_detail(r)`: `(k + 1) <= depth and pd.notna(r[hierarchy_cols[k + 1]])`. -/
def hasDetailAt (depth k : Nat) (row : Row) : Bool :=
  decide (k + 1 ≤ depth) && hasLabel row (k + 1)

/-- The backward confirming scan (`while j >= 0: ...`) of
`transform_hierarchical`, applied to the rows preceding the current row
listed nearest-first: stop at the first row whose `0..k` key differs,
and report whether any row before that had a label at level `k+1`. -/
def scanBack (depth k : Nat) (key : List (Option String)) : List Row → Bool
  | [] => false
  | r :: rs =>
    if rowKey r k == key then hasDetailAt depth k r || scanBack depth k key rs
    else false

/-- The raw `total_flag` assigned to row `i` by the candidate-level plus
backward-scan steps of `transform_hierarchical` (before the grand-total
forcing). -/
def total_flag_raw (depth : Nat) (tbl : List Row) (i : Nat) : Bool :=
  match tbl[i]? with
  | none => false
  | some row =>
    match candidate_level depth row with
    | none => false
    | some k => scanBack depth k (rowKey row k) ((tbl.take i).reverse)

/-- `astype(str).str.strip().str.lower()` of a label cell: NaN prints as
`"nan"`. -/
def normLower (o : Option String) : String :=
  match o with
  | some s => pyLower (pyStrip s)
  | none => "nan"

/-- Row whose shallowest-level label normalizes to exactly `"total"`
(`pt_norm.eq("total")`). -/
def isTotalRow (row : Row) : Bool := normLower (levelLabel row 0) == "total"

/-- Index of the last element satisfying `p`
(`total_rows[total_rows].index.max()`). -/
def lastIdxP {α : Type} (p : α → Bool) : List α → Option Nat
  | [] => none
  | r :: rs =>
    match lastIdxP p rs with
    | some j => some (j + 1)
    | none => if p r then some 0 else none

/-- The `total_flag` column produced by `transform_hierarchical` of
extract_pr.py (shared by extract_imp_tfw.py and, before its anomaly
override, extract_study.py): the raw candidate/backward-scan flags, with
the very last row whose level-0 label normalizes to `"total"` forced to
`True`. -/
def transform_total_flags (depth : Nat) (tbl : List Row) : List Bool :=
  let raw := (List.range tbl.length).map (total_flag_raw depth tbl)
  match lastIdxP isTotalRow tbl with
  | none => raw
  | some i => raw.set i true

/-- First non-blank value in the list (`bfill` source lookup: the next
non-null value below). -/
def nextSome : List (Option String) → Option String
  | [] => none
  | some v :: _ => some v
  | none :: xs => nextSome xs

/-- `df["province_territory"].bfill()`: each blank level-0 cell takes the
next non-blank level-0 value below it. -/
def infillLevel0 : List Row → List Row
  | [] => []
  | r :: rs =>
    (match levelLabel r 0 with
      | some _ => r
      | none => r.set 0 (nextSome (rs.map (levelLabel · 0)))) :: infillLevel0 rs

/-- In `df.groupby(parent_key, dropna=False)[col].bfill()`, the fill value
for a blank cell: the level-`lvl` label of the first later row with the
same `0 .. lvl-1` parent key and a non-blank level-`lvl` label (`groupby`
collects equal keys wherever they occur; `dropna=False` lets blank keys
form groups too). -/
def findNextInGroup (lvl : Nat) (key : List (Option String)) : List Row → Option String
  | [] => none
  | r :: rs =>
    if r.take lvl == key then
      match levelLabel r lvl with
      | some v => some v
      | none => findNextInGroup lvl key rs
    else findNextInGroup lvl key rs

/-- Group-wise backfill of one intermediate hierarchy level. -/
def infillLevel (lvl : Nat) : List Row → List Row
  | [] => []
  | r :: rs =>
    (match levelLabel r lvl with
      | some _ => r
      | none => r.set lvl (findNextInGroup lvl (r.take lvl) rs)) :: infillLevel lvl rs

/-- The infill stage of `transform_hierarchical`: backfill level 0
unconditionally, then backfill the intermediate levels `1 .. depth-1`
group-wise (the deepest level is never backfilled). -/
def infill (depth : Nat) (tbl : List Row) : List Row :=
  (List.range' 1 (depth - 1)).foldl (fun t lvl => infillLevel lvl t) (infillLevel0 tbl)

/-- One cleaned wide row of the asylum dataset: column A
(`claim_office_type`) and column B (`province_territory`), `none` = NaN. -/
structure ARow where
  claim_office_type : Option String
  province_territory : Option String
deriving DecidableEq

/-- `data["province_territory"].isna() | (astype(str).str.strip() == "")`. -/
def provBlank (r : ARow) : Bool :=
  match r.province_territory with
  | none => true
  | some s => pyStrip s == ""

/-- `data["claim_office_type"].notna() & (astype(str).str.strip() != "")`. -/
def cotPresent (r : ARow) : Bool :=
  match r.claim_office_type with
  | none => false
  | some s => !(pyStrip s == "")

/-- `cot_norm2.eq("other offices")` on
`astype(str).str.strip().str.lower()`. -/
def isOtherOffices (r : ARow) : Bool := normLower r.claim_office_type == "other offices"

/-- `cot_norm.eq("total")` on `astype(str).str.strip().str.lower()`. -/
def cotTotal (r : ARow) : Bool := normLower r.claim_office_type == "total"

/-- The raw asylum `total_flag` formula of `parse_asylum_data`:
`(cot_present & prov_blank) & (~is_other_offices)`. -/
def asylumFlagRaw (r : ARow) : Bool :=
  (cotPresent r && provBlank r) && !(isOtherOffices r)

/-- The `total_flag` column of `parse_asylum_data` (extract_asylum.py):
the raw formula, with the very last row whose `claim_office_type`
normalizes to `"total"` forced to `True`. -/
def parse_asylum_total_flags (tbl : List ARow) : List Bool :=
  let raw := tbl.map asylumFlagRaw
  match lastIdxP cotTotal tbl with
  | none => raw
  | some i => raw.set i true

/-- The study anomaly label test of extract_study.py:
`province_territory.str.strip().str.lower().eq("province/territory not stated total")`. -/
def isAnomalyRow (row : Row) : Bool :=
  normLower (levelLabel row 0) == "province/territory not stated total"

/-- The `total_flag` column of extract_study.py's `transform_hierarchical`:
the generic engine (candidate level, backward scan, grand-total forcing)
followed by the anomaly override that forces the
"Province/territory not stated Total" rows to `False`. -/
def study_total_flags (depth : Nat) (tbl : List Row) : List Bool :=
  (tbl.zip (transform_total_flags depth tbl)).map fun rb =>
    if isAnomalyRow rb.1 then false else rb.2

/-! Helper lemmas about `lastIdxP` and the flag pipelines. -/

theorem lastIdxP_lt {α : Type} (p : α → Bool) :
    ∀ (l : List α) (i : Nat), lastIdxP p l = some i → i < l.length := by
  intro l
  induction l with
  | nil => intro i h; simp [lastIdxP] at h
  | cons r rs ih =>
    intro i h
    simp only [lastIdxP] at h
    cases hrs : lastIdxP p rs with
    | some j =>
      rw [hrs] at h
      cases h
      have := ih j hrs
      simp only [List.length_cons]
      omega
    | none =>
      rw [hrs] at h
      by_cases hp : p r = true
      · simp [hp] at h
        cases h
        simp
      · simp [hp] at h

theorem lastIdxP_eq_none {α : Type} (p : α → Bool) :
    ∀ (l : List α), lastIdxP p l = none ↔ ∀ x ∈ l, p x = false := by
  intro l
  induction l with
  | nil => simp [lastIdxP]
  | cons r rs ih =>
    simp only [lastIdxP]
    cases hrs : lastIdxP p rs with
    | some j =>
      constructor
      · intro h; simp at h
      · intro h
        have hnone : lastIdxP p rs = none := ih.mpr fun x hx => h x (by simp [hx])
        rw [hnone] at hrs; cases hrs
    | none =>
      by_cases hp : p r = true
      · simp [hp]
      · simp only [Bool.not_eq_true] at hp
        simp only [hp, Bool.false_eq_true, if_false]
        constructor
        · intro _ x hx
          rcases List.mem_cons.mp hx with h1 | h2
          · subst h1; exact hp
          · exact ih.mp hrs x h2
        · intro _; trivial

theorem lastIdxP_getD {α : Type} (p : α → Bool) (d : α) :
    ∀ (l : List α) (i : Nat), lastIdxP p l = some i → p (l.getD i d) = true := by
  intro l
  induction l with
  | nil => intro i h; simp [lastIdxP] at h
  | cons r rs ih =>
    intro i h
    simp only [lastIdxP] at h
    cases hrs : lastIdxP p rs with
    | some j =>
      rw [hrs] at h
      cases h
      simpa using ih j hrs
    | none =>
      rw [hrs] at h
      by_cases hp : p r = true
      · simp [hp] at h
        cases h
        simpa using hp
      · simp [hp] at h

theorem lastIdxP_after {α : Type} (p : α → Bool) (d : α) :
    ∀ (l : List α) (i : Nat), lastIdxP p l = some i →
      ∀ j, i < j → j < l.length → p (l.getD j d) = false := by
  intro l
  induction l with
  | nil => intro i h; simp [lastIdxP] at h
  | cons r rs ih =>
    intro i h j hij hj
    simp only [lastIdxP] at h
    cases hrs : lastIdxP p rs with
    | some j' =>
      rw [hrs] at h
      cases h
      match j, hij with
      | j'' + 1, hij =>
        simp only [List.getD_cons_succ]
        exact ih j' hrs j'' (by omega) (by simpa using Nat.lt_of_succ_lt_succ hj)
    | none =>
      rw [hrs] at h
      by_cases hp : p r = true
      · simp [hp] at h
        cases h
        match j, hij with
        | j'' + 1, _ =>
          simp only [List.getD_cons_succ]
          have hjl : j'' < rs.length := by simpa using Nat.lt_of_succ_lt_succ hj
          have hget : rs.getD j'' d = rs[j''] := by
            simp [List.getD_eq_getElem?_getD, List.getElem?_eq_getElem hjl]
          rw [hget]
          exact (lastIdxP_eq_none p rs).mp hrs _ (List.getElem_mem hjl)
      · simp [hp] at h

theorem lastIdxP_isSome_of {α : Type} (p : α → Bool) (l : List α)
    (h : ∃ x ∈ l, p x = true) : (lastIdxP p l).isSome := by
  cases hl : lastIdxP p l with
  | some i => simp
  | none =>
    obtain ⟨x, hx, hpx⟩ := h
    have := (lastIdxP_eq_none p l).mp hl x hx
    simp [this] at hpx

theorem length_transform_total_flags (depth : Nat) (tbl : List Row) :
    (transform_total_flags depth tbl).length = tbl.length := by
  unfold transform_total_flags
  cases lastIdxP isTotalRow tbl <;> simp

theorem transform_total_flags_forced (depth : Nat) (tbl : List Row) (i : Nat)
    (h : lastIdxP isTotalRow tbl = some i) :
    (transform_total_flags depth tbl)[i]? = some true := by
  have hi : i < tbl.length := lastIdxP_lt _ _ _ h
  unfold transform_total_flags
  rw [h]
  rw [List.getElem?_set_self (by simpa using hi)]

theorem transform_total_flags_raw (depth : Nat) (tbl : List Row) (i : Nat)
    (hi : i < tbl.length) (hne : lastIdxP isTotalRow tbl ≠ some i) :
    (transform_total_flags depth tbl)[i]? = some (total_flag_raw depth tbl i) := by
  unfold transform_total_flags
  cases h : lastIdxP isTotalRow tbl with
  | none => simp [List.getElem?_range hi]
  | some t =>
    have hti : t ≠ i := fun he => hne (he ▸ h)
    rw [List.getElem?_set_ne hti]
    simp [List.getElem?_range hi]

theorem transform_total_flags_true_of_raw (depth : Nat) (tbl : List Row) (i : Nat)
    (hi : i < tbl.length) (h : total_flag_raw depth tbl i = true) :
    (transform_total_flags depth tbl)[i]? = some true := by
  by_cases hf : lastIdxP isTotalRow tbl = some i
  · exact transform_total_flags_forced depth tbl i hf
  · rw [transform_total_flags_raw depth tbl i hi hf, h]

theorem parse_asylum_total_flags_forced (tbl : List ARow) (i : Nat)
    (h : lastIdxP cotTotal tbl = some i) :
    (parse_asylum_total_flags tbl)[i]? = some true := by
  have hi : i < tbl.length := lastIdxP_lt _ _ _ h
  unfold parse_asylum_total_flags
  rw [h]
  rw [List.getElem?_set_self (by simpa using hi)]

theorem parse_asylum_total_flags_raw (tbl : List ARow) (i : Nat) (r : ARow)
    (hr : tbl[i]? = some r) (hne : lastIdxP cotTotal tbl ≠ some i) :
    (parse_asylum_total_flags tbl)[i]? = some (asylumFlagRaw r) := by
  unfold parse_asylum_total_flags
  cases h : lastIdxP cotTotal tbl with
  | none => simp [List.getElem?_map, hr]
  | some t =>
    have hti : t ≠ i := by intro he; subst he; exact hne h
    rw [List.getElem?_set_ne hti]
    simp [List.getElem?_map, hr]

theorem study_total_flags_getElem? (depth : Nat) (tbl : List Row) (i : Nat)
    (row : Row) (b : Bool) (h1 : tbl[i]? = some row)
    (h2 : (transform_total_flags depth tbl)[i]? = some b) :
    (study_total_flags depth tbl)[i]? =
      some (if isAnomalyRow row then false else b) := by
  unfold study_total_flags
  have hz : (tbl.zip (transform_total_flags depth tbl))[i]? = some (row, b) :=
    List.getElem?_zip_eq_some.mpr ⟨h1, h2⟩
  rw [List.getElem?_map, hz]
  rfl

theorem lt_length_of_getElem?_eq_some {α : Type} {l : List α} {i : Nat} {a : α}
    (h : l[i]? = some a) : i < l.length := by
  by_contra hc
  rw [List.getElem?_eq_none (by omega)] at h
  cases h

theorem getD_of_getElem?_eq_some {α : Type} {l : List α} {i : Nat} {a d : α}
    (h : l[i]? = some a) : l.getD i d = a := by
  simp [List.getD_eq_getElem?_getD, h]

/-- C2: for every processed table containing a row whose shallowest-level
label normalizes to exactly "Total", the final such row ends with
`total_flag = True` — under the generic engine, under extract_study.py's
anomaly override, and under extract_asylum.py's flag formula with its
"Other Offices" override. -/
theorem c2_grand_total_invariant :
    (∀ (depth : Nat) (tbl : List Row), (∃ r ∈ tbl, isTotalRow r = true) →
      ∃ i, lastIdxP isTotalRow tbl = some i ∧
        isTotalRow (tbl.getD i []) = true ∧
        (∀ j, i < j → j < tbl.length → isTotalRow (tbl.getD j []) = false) ∧
        (transform_total_flags depth tbl)[i]? = some true ∧
        (study_total_flags depth tbl)[i]? = some true) ∧
    (∀ (atbl : List ARow), (∃ r ∈ atbl, cotTotal r = true) →
      ∃ i, lastIdxP cotTotal atbl = some i ∧
        cotTotal (atbl.getD i ⟨none, none⟩) = true ∧
        (parse_asylum_total_flags atbl)[i]? = some true) := by
  constructor
  · intro depth tbl h
    obtain ⟨i, hi⟩ := Option.isSome_iff_exists.mp (lastIdxP_isSome_of isTotalRow tbl h)
    refine ⟨i, hi, lastIdxP_getD isTotalRow [] tbl i hi,
      lastIdxP_after isTotalRow [] tbl i hi, transform_total_flags_forced depth tbl i hi, ?_⟩
    have hlt : i < tbl.length := lastIdxP_lt _ _ _ hi
    have hrow : tbl[i]? = some (tbl.getD i []) := by
      simp [List.getD_eq_getElem?_getD, List.getElem?_eq_getElem hlt]
    rw [study_total_flags_getElem? depth tbl i _ true hrow
      (transform_total_flags_forced depth tbl i hi)]
    have htot : isTotalRow (tbl.getD i []) = true := lastIdxP_getD isTotalRow [] tbl i hi
    have hanom : isAnomalyRow (tbl.getD i []) = false := by
      unfold isTotalRow at htot
      unfold isAnomalyRow
      have := eq_of_beq htot
      rw [this]
      rfl
    rw [hanom]
    simp
  · intro atbl h
    obtain ⟨i, hi⟩ := Option.isSome_iff_exists.mp (lastIdxP_isSome_of cotTotal atbl h)
    exact ⟨i, hi, lastIdxP_getD cotTotal ⟨none, none⟩ atbl i hi,
      parse_asylum_total_flags_forced atbl i hi⟩

/-- Witness for C2 at a concrete one-row table and a concrete asylum table. -/
theorem c2_grand_total_invariant_witness :
    (transform_total_flags 1 [[some "Total", none]])[0]? = some true ∧
    (parse_asylum_total_flags [⟨some "Total", none⟩])[0]? = some true := by
  constructor
  · obtain ⟨i, hlast, _, _, hflag, _⟩ :=
      c2_grand_total_invariant.1 1 [[some "Total", none]]
        ⟨[some "Total", none], by simp, by decide⟩
    have hc : lastIdxP isTotalRow [[some "Total", none]] = some 0 := by decide
    have : i = 0 := by rw [hc] at hlast; exact (Option.some.inj hlast).symm
    rw [← this]
    exact hflag
  · obtain ⟨i, hlast, _, hflag⟩ :=
      c2_grand_total_invariant.2 [⟨some "Total", none⟩]
        ⟨⟨some "Total", none⟩, by simp, by decide⟩
    have hc : lastIdxP cotTotal [⟨some "Total", none⟩] = some 0 := by decide
    have : i = 0 := by rw [hc] at hlast; exact (Option.some.inj hlast).symm
    rw [← this]
    exact hflag

theorem scanBack_eq_takeWhile_any (depth k : Nat) (key : List (Option String)) :
    ∀ rs : List Row,
      scanBack depth k key rs =
        ((rs.takeWhile fun r => rowKey r k == key).any (hasDetailAt depth k)) := by
  intro rs
  induction rs with
  | nil => rfl
  | cons r rs ih =>
    simp only [scanBack, List.takeWhile_cons]
    by_cases h : (rowKey r k == key) = true
    · simp [h, ih]
    · simp only [Bool.not_eq_true] at h
      simp [h]

theorem scanBack_true_of (depth k : Nat) (key : List (Option String)) :
    ∀ (rs : List Row) (n : Nat), n < rs.length →
      (∀ m, m ≤ n → rowKey (rs.getD m []) k = key) →
      hasDetailAt depth k (rs.getD n []) = true →
      scanBack depth k key rs = true := by
  intro rs
  induction rs with
  | nil => intro n hn; simp at hn
  | cons r rs ih =>
    intro n hn hkey hdet
    have hhead : rowKey r k = key := by simpa using hkey 0 (Nat.zero_le n)
    simp only [scanBack, hhead, beq_self_eq_true, if_true]
    cases n with
    | zero =>
      simp only [List.getD_cons_zero] at hdet
      simp [hdet]
    | succ n' =>
      simp only [List.getD_cons_succ] at hdet
      have : scanBack depth k key rs = true :=
        ih n' (by simpa using Nat.lt_of_succ_lt_succ hn)
          (fun m hm => by simpa using hkey (m + 1) (Nat.succ_le_succ hm)) hdet
      simp [this]

theorem reverse_take_getD (tbl : List Row) (i m : Nat)
    (hi : i ≤ tbl.length) (hm : m < i) :
    ((tbl.take i).reverse).getD m [] = tbl.getD (i - 1 - m) [] := by
  have hlen : (tbl.take i).length = i := by simp [List.length_take]; omega
  have hm' : m < (tbl.take i).length := by omega
  have h1 : ((tbl.take i).reverse)[m]? = (tbl.take i)[i - 1 - m]? := by
    rw [List.getElem?_reverse hm', hlen]
  have h2 : (tbl.take i)[i - 1 - m]? = tbl[i - 1 - m]? :=
    List.getElem?_take_of_lt (by omega)
  simp [List.getD_eq_getElem?_getD, h1, h2]

/-- C1 (amended): for a row with candidate level `k`, the confirming scan
looks exactly at the immediately preceding rows as long as they share the
`0..k` key (stopping at the first key break), and whenever some preceding
row within the unbroken same-key run carries a label at level `k+1`, the
row is flagged `total_flag = True` in the engine's output. -/
theorem c1_backward_scan_monotonicity (depth : Nat) (tbl : List Row) (i : Nat)
    (row : Row) (k : Nat) (hrow : tbl[i]? = some row)
    (hk : candidate_level depth row = some k) :
    (total_flag_raw depth tbl i =
      (((tbl.take i).reverse.takeWhile fun r => rowKey r k == rowKey row k).any
        (hasDetailAt depth k))) ∧
    (∀ j, j < i →
      (∀ m, j ≤ m → m < i → rowKey (tbl.getD m []) k = rowKey row k) →
      hasDetailAt depth k (tbl.getD j []) = true →
      (transform_total_flags depth tbl)[i]? = some true) := by
  have hilen : i < tbl.length := lt_length_of_getElem?_eq_some hrow
  constructor
  · simp only [total_flag_raw, hrow, hk]
    exact scanBack_eq_takeWhile_any depth k (rowKey row k) _
  · intro j hj hkey hdet
    have hraw : total_flag_raw depth tbl i = true := by
      simp only [total_flag_raw, hrow, hk]
      refine scanBack_true_of depth k (rowKey row k) ((tbl.take i).reverse)
        (i - 1 - j) ?_ ?_ ?_
      · have : ((tbl.take i).reverse).length = i := by
          simp [List.length_take]; omega
        omega
      · intro m hm
        rw [reverse_take_getD tbl i m (Nat.le_of_lt hilen) (by omega)]
        exact hkey (i - 1 - m) (by omega) (by omega)
      · rw [reverse_take_getD tbl i (i - 1 - j) (Nat.le_of_lt hilen) (by omega)]
        have : i - 1 - (i - 1 - j) = j := by omega
        rw [this]
        exact hdet
    exact transform_total_flags_true_of_raw depth tbl i hilen hraw

/-- Counterexample to C1 as stated: in this normalized two-row table the
rows form one group with key `["Ontario"]` at level 0; the second row has
a non-blank label at level 1, and the first row is the group's row with a
non-blank label at level 0 and blanks deeper — yet the engine assigns it
`total_flag = False`, because the detail row comes after it and the
confirming scan only looks backward. -/
theorem c1_backward_scan_counterexample :
    infill 1 [[some "Ontario", none], [some "Ontario", some "Workers"]] =
      [[some "Ontario", none], [some "Ontario", some "Workers"]] ∧
    candidate_level 1 [some "Ontario", none] = some 0 ∧
    hasLabel [some "Ontario", some "Workers"] 1 = true ∧
    rowKey [some "Ontario", some "Workers"] 0 = rowKey [some "Ontario", none] 0 ∧
    (transform_total_flags 1
      [[some "Ontario", none], [some "Ontario", some "Workers"]])[0]? =
        some false := by
  refine ⟨by decide, by decide, by decide, by decide, ?_⟩
  decide

/-- Witness for C1: with the detail row preceding the subtotal row the
amended claim applies and the flag is `True`. -/
theorem c1_backward_scan_monotonicity_witness :
    (transform_total_flags 1 [[some "O", some "W"], [some "O", none]])[1]? =
      some true := by
  have h := c1_backward_scan_monotonicity 1
    [[some "O", some "W"], [some "O", none]] 1 [some "O", none] 0
    (by decide) (by decide)
  refine h.2 0 (by omega) ?_ (by decide)
  intro m h1 h2
  have hm : m = 0 := by omega
  subst hm
  decide

theorem candidateLevelFrom_eq_some (depth : Nat) (row : Row) :
    ∀ (n k : Nat), candidateLevelFrom depth row n = some k ↔
      (k < n ∧ (hasLabel row k && blanksBelow depth row k) = true ∧
       ∀ j, k < j → j < n → (hasLabel row j && blanksBelow depth row j) = false) := by
  intro n
  induction n with
  | zero => intro k; simp [candidateLevelFrom]
  | succ n ih =>
    intro k
    simp only [candidateLevelFrom]
    by_cases h : (hasLabel row n && blanksBelow depth row n) = true
    · simp only [h, if_true]
      constructor
      · intro he
        cases he
        exact ⟨Nat.lt_succ_self n, h, fun j h1 h2 => by omega⟩
      · rintro ⟨h1, h2, h3⟩
        rcases Nat.lt_succ_iff_lt_or_eq.mp h1 with h4 | h4
        · exact absurd h (by simpa using h3 n h4 (Nat.lt_succ_self n))
        · rw [h4]
    · simp only [Bool.not_eq_true] at h
      simp only [h, Bool.false_eq_true, if_false]
      rw [ih k]
      constructor
      · rintro ⟨h1, h2, h3⟩
        refine ⟨by omega, h2, fun j hj1 hj2 => ?_⟩
        rcases Nat.lt_succ_iff_lt_or_eq.mp hj2 with h4 | h4
        · exact h3 j hj1 h4
        · rw [h4]; exact h
      · rintro ⟨h1, h2, h3⟩
        have hkn : k ≠ n := by
          intro he
          rw [he] at h2
          rw [h2] at h
          cases h
        exact ⟨by omega, h2, fun j hj1 hj2 => h3 j hj1 (by omega)⟩

theorem candidate_level_eq_none (depth : Nat) (row : Row)
    (h : ∀ j, j < depth → (hasLabel row j && blanksBelow depth row j) = false) :
    candidate_level depth row = none := by
  cases hc : candidate_level depth row with
  | none => rfl
  | some k =>
    obtain ⟨h1, h2, _⟩ := (candidateLevelFrom_eq_some depth row depth k).mp hc
    rw [h k h1] at h2
    cases h2

/-- C3 (amended): `candidate_level` returns exactly the deepest level
`k < depth` (the leaf level `depth` excluded) with a non-blank label at
`k` and blanks at all strictly deeper levels; a row with a non-blank
label at the deepest level has no candidate level and is assigned
`total_flag = False`, unless it is the final row whose level-0 label
normalizes to "Total", which the grand-total forcing sets to `True`. -/
theorem c3_candidate_level_rule :
    (∀ (depth : Nat) (row : Row) (k : Nat),
      candidate_level depth row = some k ↔
        (k < depth ∧ hasLabel row k = true ∧ blanksBelow depth row k = true ∧
         ∀ j, k < j → j < depth →
           ¬(hasLabel row j = true ∧ blanksBelow depth row j = true))) ∧
    (∀ (depth : Nat) (row : Row), hasLabel row depth = true →
      candidate_level depth row = none ∧
      ∀ (tbl : List Row) (i : Nat), tbl[i]? = some row →
        lastIdxP isTotalRow tbl ≠ some i →
        (transform_total_flags depth tbl)[i]? = some false) := by
  constructor
  · intro depth row k
    rw [candidate_level, candidateLevelFrom_eq_some depth row depth k]
    constructor
    · rintro ⟨h1, h2, h3⟩
      rw [Bool.and_eq_true] at h2
      refine ⟨h1, h2.1, h2.2, fun j hj1 hj2 hcon => ?_⟩
      have := h3 j hj1 hj2
      rw [hcon.1, hcon.2] at this
      cases this
    · rintro ⟨h1, h2, h3, h4⟩
      refine ⟨h1, by rw [h2, h3]; rfl, fun j hj1 hj2 => ?_⟩
      by_cases hl : hasLabel row j = true
      · by_cases hb : blanksBelow depth row j = true
        · exact absurd ⟨hl, hb⟩ (h4 j hj1 hj2)
        · simp only [Bool.not_eq_true] at hb
          rw [hb]
          simp
      · simp only [Bool.not_eq_true] at hl
        rw [hl]
        simp
  · intro depth row hleaf
    have hnone : candidate_level depth row = none := by
      refine candidate_level_eq_none depth row fun j hj => ?_
      have hmem : depth ∈ List.range' (j + 1) (depth - j) := by
        rw [List.mem_range'_1]
        omega
      by_cases hb : blanksBelow depth row j = true
      · have := (List.all_eq_true.mp hb) depth hmem
        rw [hleaf] at this
        cases this
      · simp only [Bool.not_eq_true] at hb
        rw [hb]
        simp
    refine ⟨hnone, fun tbl i hrow hne => ?_⟩
    have hilen : i < tbl.length := lt_length_of_getElem?_eq_some hrow
    have hraw : total_flag_raw depth tbl i = false := by
      simp only [total_flag_raw, hrow, hnone]
    rw [transform_total_flags_raw depth tbl i hilen hne, hraw]

/-- Counterexample to C3 as stated: this normalized one-row table's row
has a non-blank label at the deepest level, hence no candidate level, yet
its output `total_flag` is `True`: its level-0 label is "Total", so the
grand-total forcing overrides the generic `False`. -/
theorem c3_candidate_level_counterexample :
    infill 1 [[some "Total", some "X"]] = [[some "Total", some "X"]] ∧
    hasLabel [some "Total", some "X"] 1 = true ∧
    candidate_level 1 [some "Total", some "X"] = none ∧
    (transform_total_flags 1 [[some "Total", some "X"]])[0]? = some true := by
  refine ⟨by decide, by decide, by decide, ?_⟩
  decide

/-- Witness for C3 at a depth-2 row labelled only at level 0. -/
theorem c3_candidate_level_rule_witness :
    candidate_level 2 [some "Alberta", none, none] = some 0 ∧
    (transform_total_flags 1 [[some "A", some "B"]])[0]? = some false := by
  constructor
  · exact (c3_candidate_level_rule.1 2 [some "Alberta", none, none] 0).mpr
      ⟨by omega, by decide, by decide, fun j h1 h2 => by
        interval_cases j
        · decide⟩
  · refine (c3_candidate_level_rule.2 1 [some "A", some "B"] (by decide)).2
      [[some "A", some "B"]] 0 (by decide) ?_
    decide

/-- C6: the fixed exception labels end with `total_flag = False` in the
output: every "Other Offices" row of the asylum dataset (forced out of
the flag formula and never touched by the grand-total forcing) and every
"Province/territory not stated Total" row of the study dataset (the
anomaly override is applied last). -/
theorem c6_dataset_overrides :
    (∀ (atbl : List ARow) (i : Nat) (r : ARow), atbl[i]? = some r →
      isOtherOffices r = true →
      (parse_asylum_total_flags atbl)[i]? = some false) ∧
    (∀ (depth : Nat) (tbl : List Row) (i : Nat) (row : Row), tbl[i]? = some row →
      isAnomalyRow row = true →
      (study_total_flags depth tbl)[i]? = some false) := by
  constructor
  · intro atbl i r hr hoo
    have hne : lastIdxP cotTotal atbl ≠ some i := by
      intro he
      have htot : cotTotal (atbl.getD i ⟨none, none⟩) = true :=
        lastIdxP_getD cotTotal ⟨none, none⟩ atbl i he
      rw [getD_of_getElem?_eq_some hr] at htot
      unfold cotTotal at htot
      unfold isOtherOffices at hoo
      rw [eq_of_beq htot] at hoo
      cases hoo
    rw [parse_asylum_total_flags_raw atbl i r hr hne]
    have : asylumFlagRaw r = false := by simp [asylumFlagRaw, hoo]
    rw [this]
  · intro depth tbl i row hrow hanom
    have hilen : i < tbl.length := lt_length_of_getElem?_eq_some hrow
    have hflen : i < (transform_total_flags depth tbl).length := by
      rw [length_transform_total_flags]; exact hilen
    obtain ⟨b, hb⟩ : ∃ b, (transform_total_flags depth tbl)[i]? = some b := by
      exact ⟨(transform_total_flags depth tbl)[i], List.getElem?_eq_getElem hflen⟩
    rw [study_total_flags_getElem? depth tbl i row b hrow hb, hanom]
    simp

/-- Witness for C6 at concrete one-row tables carrying each exception label. -/
theorem c6_dataset_overrides_witness :
    (parse_asylum_total_flags [⟨some "Other Offices", none⟩])[0]? = some false ∧
    (study_total_flags 1
      [[some "Province/territory not stated Total", none]])[0]? = some false := by
  constructor
  · exact c6_dataset_overrides.1 [⟨some "Other Offices", none⟩] 0
      ⟨some "Other Offices", none⟩ (by decide) (by decide)
  · exact c6_dataset_overrides.2 1
      [[some "Province/territory not stated Total", none]] 0
      [some "Province/territory not stated Total", none] (by decide) (by decide)

/-- One wide row entering `unpivot_data`: its id columns (hierarchy labels
and `total_flag`) and the numeric value of each canonical month column,
aligned by position with the column-key list. -/
structure WideRow where
  ids : List (Option String)
  total_flag : Bool
  vals : List Int
deriving DecidableEq

/-- One long-format record produced by the melt. -/
structure LongRec where
  ids : List (Option String)
  total_flag : Bool
  year_month : String
  value : Int
deriving DecidableEq

/-- The long record for wide row `r` and the `j`-th canonical column `c`. -/
def mkLong (r : WideRow) (c : String) (j : Nat) : LongRec :=
  ⟨r.ids, r.total_flag, c, r.vals.getD j 0⟩

/-- `pd.melt(df, id_vars=hierarchy_cols + ["total_flag"],
value_vars=month_cols, ...)`: one block of records per value column, one
record per wide row inside a block, blocks concatenated in column order. -/
def meltCols (rows : List WideRow) : Nat → List String → List LongRec
  | _, [] => []
  | j, c :: cs => rows.map (fun r => mkLong r c j) ++ meltCols rows (j + 1) cs

/-- `unpivot_data` of extract_pr.py (same melt as `unpivot_asylum` and
`unpivot_monthly`). -/
def unpivot_data (rows : List WideRow) (cols : List String) : List LongRec :=
  meltCols rows 0 cols

/-- The identifier tuple of a wide row (hierarchy labels + `total_flag`). -/
def wideKey (r : WideRow) : List (Option String) × Bool := (r.ids, r.total_flag)

/-- The (hierarchy-key, period) pair of a long record. -/
def longKey (rec : LongRec) : (List (Option String) × Bool) × String :=
  ((rec.ids, rec.total_flag), rec.year_month)

theorem meltCols_length (rows : List WideRow) :
    ∀ (cols : List String) (j : Nat),
      (meltCols rows j cols).length = rows.length * cols.length := by
  intro cols
  induction cols with
  | nil => intro j; simp [meltCols]
  | cons c cs ih =>
    intro j
    simp only [meltCols, List.length_append, List.length_map, ih, List.length_cons]
    ring

theorem meltCols_mem (rows : List WideRow) :
    ∀ (cols : List String) (j m : Nat) (r : WideRow), m < cols.length → r ∈ rows →
      mkLong r (cols.getD m "") (j + m) ∈ meltCols rows j cols := by
  intro cols
  induction cols with
  | nil => intro j m r hm; simp at hm
  | cons c cs ih =>
    intro j m r hm hr
    cases m with
    | zero =>
      simp only [List.getD_cons_zero, Nat.add_zero, meltCols, List.mem_append]
      exact Or.inl (List.mem_map_of_mem _ hr)
    | succ m' =>
      simp only [List.getD_cons_succ, meltCols, List.mem_append]
      refine Or.inr ?_
      have := ih (j + 1) m' r (by simpa using Nat.lt_of_succ_lt_succ hm) hr
      have harith : j + 1 + m' = j + (m' + 1) := by omega
      rwa [harith] at this

theorem meltCols_year_month_mem (rows : List WideRow) :
    ∀ (cols : List String) (j : Nat) (rec : LongRec),
      rec ∈ meltCols rows j cols → rec.year_month ∈ cols := by
  intro cols
  induction cols with
  | nil => intro j rec h; simp [meltCols] at h
  | cons c cs ih =>
    intro j rec h
    simp only [meltCols, List.mem_append] at h
    rcases h with h | h
    · obtain ⟨r, _, hr⟩ := List.mem_map.mp h
      rw [← hr]
      simp [mkLong]
    · exact List.mem_cons_of_mem c (ih (j + 1) rec h)

theorem meltCols_nodup (rows : List WideRow)
    (hrows : (rows.map wideKey).Nodup) :
    ∀ (cols : List String) (j : Nat), cols.Nodup →
      ((meltCols rows j cols).map longKey).Nodup := by
  intro cols
  induction cols with
  | nil => intro j _; simp [meltCols]
  | cons c cs ih =>
    intro j hcols
    have hc : c ∉ cs := (List.nodup_cons.mp hcols).1
    have hcs : cs.Nodup := (List.nodup_cons.mp hcols).2
    simp only [meltCols, List.map_append]
    rw [List.nodup_append]
    refine ⟨?_, ih (j + 1) hcs, ?_⟩
    · have heq : (rows.map (fun r => mkLong r c j)).map longKey =
          (rows.map wideKey).map (fun p => (p, c)) := by
        simp only [List.map_map]
        rfl
      rw [heq]
      exact hrows.map (fun p q hpq => (Prod.mk.injEq _ _ _ _ ▸ congrArg Prod.fst hpq))
    · intro x hx hx'
      obtain ⟨rec, hrec, hrecx⟩ := List.mem_map.mp hx
      obtain ⟨rec', hrec', hrecx'⟩ := List.mem_map.mp hx'
      obtain ⟨r, _, hr⟩ := List.mem_map.mp hrec
      have h1 : x.2 = c := by rw [← hrecx, ← hr]; rfl
      have h2 : x.2 ∈ cs := by
        rw [← hrecx']
        exact meltCols_year_month_mem rows cs (j + 1) rec' hrec'
      rw [h1] at h2
      exact hc h2

/-- C5 (amended): the melt emits exactly `R × C` long records — one per
(wide row × canonical column), dropping none (zero values included) —
and the emitted (hierarchy-key, period) pairs are pairwise distinct
provided the wide rows' identifier tuples are pairwise distinct and the
canonical columns are distinct. -/
theorem c5_melt_completeness (rows : List WideRow) (cols : List String) :
    (unpivot_data rows cols).length = rows.length * cols.length ∧
    (∀ r ∈ rows, ∀ m, m < cols.length →
      mkLong r (cols.getD m "") m ∈ unpivot_data rows cols) ∧
    ((rows.map wideKey).Nodup → cols.Nodup →
      ((unpivot_data rows cols).map longKey).Nodup) := by
  refine ⟨meltCols_length rows cols 0, ?_, ?_⟩
  · intro r hr m hm
    simpa using meltCols_mem rows cols 0 m r hm hr
  · intro h1 h2
    exact meltCols_nodup rows h1 cols 0 h2

/-- Counterexample to C5 as stated: two distinct wide rows sharing the
same identifier tuple yield duplicate (hierarchy-key, period) pairs. -/
theorem c5_melt_counterexample :
    ¬ (((unpivot_data [⟨[some "A"], false, [1]⟩, ⟨[some "A"], false, [2]⟩]
      ["2020-01"]).map longKey).Nodup) := by
  decide

/-- Witness for C5 at a concrete one-row, one-column wide table. -/
theorem c5_melt_completeness_witness :
    mkLong ⟨[some "A"], false, [7]⟩ "2020-01" 0 ∈
      unpivot_data [⟨[some "A"], false, [7]⟩] ["2020-01"] ∧
    ((unpivot_data [⟨[some "A"], false, [7]⟩] ["2020-01"]).map longKey).Nodup := by
  have h := c5_melt_completeness [⟨[some "A"], false, [7]⟩] ["2020-01"]
  exact ⟨h.2.1 _ (by simp) 0 (by decide), h.2.2 (by decide) (by decide)⟩

/-- `str.replace(c, "")`: remove every occurrence of character `c`. -/
def removeAllChar (c : Char) (s : String) : String :=
  String.mk (s.data.filter (fun x => !(x == c)))

/-- The separator-stripping head of the numeric cleaning chain:
remove commas, U+202F narrow no-break spaces and U+00A0 no-break
spaces, then `.str.strip()`. -/
def stripSeps (s : String) : String :=
  pyStrip (removeAllChar '\u00A0' (removeAllChar '\u202F' (removeAllChar ',' s)))

/-- `.replace({"--": "2", "": "0", "nan": "0", "None": "0"})` — whole-value
substitution. -/
def substPlaceholders (s : String) : String :=
  if s == "--" then "2"
  else if s == "" || s == "nan" || s == "None" then "0"
  else s

/-- Numeric value of a big-endian list of decimal digit characters. -/
def digitsFold (cs : List Char) : Nat :=
  cs.foldl (fun a c => 10 * a + (c.toNat - 48)) 0

/-- Parse a non-empty all-digit character list, else fail. -/
def digitsValOpt (cs : List Char) : Option Nat :=
  if (!cs.isEmpty) && cs.all (·.isDigit) then some (digitsFold cs) else none

/-- `pd.to_numeric(..., errors="coerce")` on the integer literals these
count datasets contain: optional sign plus decimal digits; anything else
coerces to NaN (`none`). -/
def pandasToNumericInt (s : String) : Option Int :=
  match s.data with
  | '-' :: rest => (digitsValOpt rest).map (fun n => -(n : Int))
  | '+' :: rest => (digitsValOpt rest).map (fun n => (n : Int))
  | cs => (digitsValOpt cs).map (fun n => (n : Int))

/-- One value cell through the numeric cleaning chain shared by
`parse_pr_data`, `parse_asylum_data`, `build_monthly_dataframe` and
`clean_citizenship_xlsx`, with the final `.fillna(0)`. -/
def clean_numeric_cell (s : String) : Int :=
  (pandasToNumericInt (substPlaceholders (stripSeps s))).getD 0

/-- C4: the numeric cell normalizer strips commas and non-breaking/narrow
spaces and trims, then substitutes the exact token "--" to 2 and
blank/"nan"/"None" to 0; "1,234" yields 1234, and anything still
unparseable coerces to 0 rather than failing. -/
theorem c4_numeric_substitution :
    clean_numeric_cell "--" = 2 ∧
    clean_numeric_cell "" = 0 ∧
    clean_numeric_cell "nan" = 0 ∧
    clean_numeric_cell "None" = 0 ∧
    clean_numeric_cell "1,234" = 1234 ∧
    clean_numeric_cell "  --  " = 2 ∧
    (∀ s : String, pandasToNumericInt (substPlaceholders (stripSeps s)) = none →
      clean_numeric_cell s = 0) := by
  refine ⟨by decide, by decide, by decide, by decide, by decide, by decide, ?_⟩
  intro s h
  unfold clean_numeric_cell
  rw [h]
  rfl

/-- Witness for C4: an unparseable token coerces to 0. -/
theorem c4_numeric_substitution_witness : clean_numeric_cell "n/a" = 0 :=
  c4_numeric_substitution.2.2.2.2.2.2 "n/a" (by decide)

/-- `base = ["province_territory", "category_1", "category_2", "category_3"]`
of parse_pr_data / parse_input_generic. -/
def hierarchyBase : List String :=
  ["province_territory", "category_1", "category_2", "category_3"]

/-- The hierarchy-depth guard of parse_pr_data / parse_input_generic:
`if hier_n < 1 or hier_n > 4: raise ValueError(...)`, else
`hierarchy_cols = base[:hier_n]`; `none` models the raised
UnexpectedHierarchyDepth error. -/
def hierarchy_cols_checked (hier_n : Nat) : Option (List String) :=
  if hier_n < 1 ∨ 4 < hier_n then none else some (hierarchyBase.take hier_n)

/-- The asylum adjustment `if first_data_col < 2: first_data_col = 2`. -/
def asylumFirstDataCol (c : Nat) : Nat := if c < 2 then 2 else c

/-- extract_asylum.py's fixed hierarchy columns. -/
def asylumHierarchyCols : List String :=
  ["claim_office_type", "province_territory"]

/-- C8: the hierarchy-column count must lie in [1,4]: inside the range the
guard passes and yields `base[:hier_n]` (no error), outside it the PR/IMP
and TFW parsers fail fast with no recovery, while the asylum extractor
forces `first_data_col` to 2 when fewer than 2 columns are detected and
always uses its fixed 2-entry hierarchy. -/
theorem c8_hierarchy_depth_guard :
    (∀ n : Nat, 1 ≤ n → n ≤ 4 →
      hierarchy_cols_checked n = some (hierarchyBase.take n) ∧
      (hierarchyBase.take n).length = n) ∧
    (∀ n : Nat, n < 1 ∨ 4 < n → hierarchy_cols_checked n = none) ∧
    (∀ c : Nat, c < 2 → asylumFirstDataCol c = 2) ∧
    (∀ c : Nat, 2 ≤ c → asylumFirstDataCol c = c) ∧
    asylumHierarchyCols.length = 2 := by
  refine ⟨?_, ?_, ?_, ?_, rfl⟩
  · intro n h1 h4
    constructor
    · unfold hierarchy_cols_checked
      rw [if_neg (by omega)]
    · simp only [List.length_take, hierarchyBase, List.length_cons,
        List.length_nil]
      omega
  · intro n h
    unfold hierarchy_cols_checked
    rw [if_pos h]
  · intro c h
    unfold asylumFirstDataCol
    rw [if_pos h]
  · intro c h
    unfold asylumFirstDataCol
    rw [if_neg (by omega)]

/-- Witness for C8 at counts 3 (in range), 5 (out of range), and asylum
first-data columns 1 and 3. -/
theorem c8_hierarchy_depth_guard_witness :
    hierarchy_cols_checked 3 =
      some ["province_territory", "category_1", "category_2"] ∧
    hierarchy_cols_checked 5 = none ∧
    asylumFirstDataCol 1 = 2 ∧
    asylumFirstDataCol 3 = 3 := by
  refine ⟨?_, c8_hierarchy_depth_guard.2.1 5 (by omega),
    c8_hierarchy_depth_guard.2.2.1 1 (by omega),
    c8_hierarchy_depth_guard.2.2.2.1 3 (by omega)⟩
  rw [(c8_hierarchy_depth_guard.1 3 (by omega) (by omega)).1]
  rfl

/-- One row of a stream CSV as the cross-stream aggregator sees it:
`year`, `value`, and the `total_flag` cell (`none` = NaN). -/
structure RawRec where
  year : Int
  value : Int
  flag : Option Bool
deriving DecidableEq

/-- The aggregator's effective flag (extracted_agg.py): when the stream
has no `total_flag` column it creates one that is `False` on every row;
when the column exists, NaN cells are filled with `False`. -/
def effFlag (hasCol : Bool) (r : RawRec) : Bool :=
  if hasCol then r.flag.getD false else false

/-- `combined_table[~combined_table["total_flag"]]` for one stream. -/
def filterDetail (hasCol : Bool) (rows : List RawRec) : List RawRec :=
  rows.filter fun r => !(effFlag hasCol r)

/-- Sum of `value` over one stream's rows for a given year. -/
def yearSum (rows : List RawRec) (y : Int) : Int :=
  ((rows.filter fun r => r.year == y).map RawRec.value).sum

/-- `groupby(["stream", "year"])["value"].sum()` for one stream and year,
after the `total_flag` filter. -/
def aggYearSum (hasCol : Bool) (rows : List RawRec) (y : Int) : Int :=
  yearSum (filterDetail hasCol rows) y

/-- The `fullmatch(r"(?i)total")` test of clean_citizenship_xlsx on the
already-stripped first-column label. -/
def hcIsTotal (s : String) : Bool := pyLower s == "total"

/-- `data.loc[: matches.max() - 1]`: keep only the rows strictly before
the last "Total" label (extract_hc.py removes its grand-total row). -/
def hcTrim (labels : List String) : List String :=
  match lastIdxP hcIsTotal labels with
  | none => labels
  | some i => labels.take i

/-- C10: a stream whose CSV lacks a `total_flag` column (the HC stream,
whose grand "Total" row was removed before emission) gets
`total_flag = False` on every row, so the aggregator's filter keeps all
of its rows and its per-year sums count them all as detail rows. -/
theorem c10_aggregator_default_flag :
    (∀ r : RawRec, effFlag false r = false) ∧
    (∀ rows : List RawRec, filterDetail false rows = rows) ∧
    (∀ (rows : List RawRec) (y : Int), aggYearSum false rows y = yearSum rows y) ∧
    (∀ (labels : List String) (i : Nat), lastIdxP hcIsTotal labels = some i →
      (hcTrim labels)[i]? = none ∧
      ∀ j, j < i → (hcTrim labels)[j]? = labels[j]?) := by
  have hfil : ∀ rows : List RawRec, filterDetail false rows = rows := by
    intro rows
    simp [filterDetail, effFlag]
  refine ⟨fun r => rfl, hfil, ?_, ?_⟩
  · intro rows y
    unfold aggYearSum
    rw [hfil rows]
  · intro labels i h
    have hi : i < labels.length := lastIdxP_lt _ _ _ h
    unfold hcTrim
    rw [h]
    constructor
    · exact List.getElem?_eq_none (by simp [List.length_take])
    · intro j hj
      exact List.getElem?_take_of_lt hj

/-- Witness for C10 on a two-row HC label column ending in "Total". -/
theorem c10_aggregator_default_flag_witness :
    (hcTrim ["India", "Total"])[1]? = none ∧
    (hcTrim ["India", "Total"])[0]? = some "India" := by
  have h := c10_aggregator_default_flag.2.2.2 ["India", "Total"] 1 (by decide)
  refine ⟨h.1, ?_⟩
  rw [h.2 0 (by omega)]
  rfl

/-- The fixed 12-entry month table (`month_map`). -/
def monthTable : List (String × String) :=
  [("Jan", "01"), ("Feb", "02"), ("Mar", "03"), ("Apr", "04"),
   ("May", "05"), ("Jun", "06"), ("Jul", "07"), ("Aug", "08"),
   ("Sep", "09"), ("Oct", "10"), ("Nov", "11"), ("Dec", "12")]

/-- `normalize_month`: NaN stays out, otherwise strip and look the token
up case-sensitively in the fixed table (`month_map.get(x_str)`). -/
def normalize_month (x : Option String) : Option String :=
  match x with
  | none => none
  | some s => monthTable.lookup (pyStrip s)

/-- Big-endian decimal digit list of `y`. -/
def natDigitsBE (y : Nat) : List Nat := (Nat.digits 10 y).reverse

/-- Digit list of `f"{y:04d}"`: zero-padded to width 4. -/
def pad4Digits (y : Nat) : List Nat :=
  List.replicate (4 - (natDigitsBE y).length) 0 ++ natDigitsBE y

/-- `f"{y:04d}"` for a nonnegative year. -/
def pad4 (y : Nat) : String := String.mk ((pad4Digits y).map Nat.digitChar)

/-- `f"{y:04d}-{month_num}"`: the canonical column key. -/
def mkYearMonth (y : Nat) (mm : String) : String := pad4 y ++ "-" ++ mm

/-- `str.split("-")` over the character list (the emitter's
`.str.split("-", expand=True)`). -/
def splitDashAux : List Char → List Char → List (List Char)
  | [], acc => [acc.reverse]
  | c :: rest, acc =>
    if c = '-' then acc.reverse :: splitDashAux rest []
    else splitDashAux rest (c :: acc)

/-- The pieces of a `year_month` key split on `"-"`. -/
def splitYearMonth (s : String) : List String :=
  (splitDashAux s.data []).map String.mk

/-- `astype(int)` on the digit strings the split produces. -/
def parseNatStr (s : String) : Option Nat := digitsValOpt s.data

/-- Does `s` match the pattern `YYYY-MM` with `MM` in `01..12`? -/
def isYYYYMM (s : String) : Bool :=
  match s.data with
  | [c1, c2, c3, c4, c5, c6, c7] =>
    c1.isDigit && c2.isDigit && c3.isDigit && c4.isDigit && (c5 == '-') &&
    c6.isDigit && c7.isDigit &&
    decide (1 ≤ digitsFold [c6, c7]) && decide (digitsFold [c6, c7] ≤ 12)
  | _ => false

theorem digitChar_facts : ∀ d, d < 10 →
    ((Nat.digitChar d).toNat - 48 = d ∧ (Nat.digitChar d).isDigit = true ∧
     ¬(Nat.digitChar d = '-')) := by decide

theorem lookup_mem_values {α β : Type} [BEq α] :
    ∀ (l : List (α × β)) (a : α) (b : β),
      l.lookup a = some b → b ∈ l.map Prod.snd := by
  intro l
  induction l with
  | nil => intro a b h; simp [List.lookup] at h
  | cons p es ih =>
    intro a b h
    rw [List.lookup] at h
    split at h
    · cases h; exact List.mem_cons_self _ _
    · exact List.mem_cons_of_mem _ (ih a b h)

theorem natDigitsBE_len_le (y : Nat) (hy : y ≤ 9999) :
    (natDigitsBE y).length ≤ 4 := by
  unfold natDigitsBE
  rw [List.length_reverse]
  by_cases h0 : y = 0
  · subst h0; simp
  · by_contra hlen
    push_neg at hlen
    have h1 : (10 : ℕ) ^ (Nat.digits 10 y).length ≤ 10 * y :=
      Nat.base_pow_length_digits_le 10 y (by norm_num) h0
    have h2 : (10 : ℕ) ^ 5 ≤ 10 ^ (Nat.digits 10 y).length :=
      Nat.pow_le_pow_right (by norm_num) (by omega)
    have h3 : (10 : ℕ) ^ 5 ≤ 10 * y := le_trans h2 h1
    norm_num at h3
    omega

theorem pad4Digits_lt (y : Nat) : ∀ d ∈ pad4Digits y, d < 10 := by
  intro d hd
  unfold pad4Digits at hd
  rcases List.mem_append.mp hd with h | h
  · have := List.eq_of_mem_replicate h
    omega
  · unfold natDigitsBE at h
    exact Nat.digits_lt_base (by norm_num) (List.mem_reverse.mp h)

theorem pad4Digits_length (y : Nat) (hy : y ≤ 9999) :
    (pad4Digits y).length = 4 := by
  have := natDigitsBE_len_le y hy
  unfold pad4Digits
  rw [List.length_append, List.length_replicate]
  omega

theorem digitsFold_rev_map (L : List Nat) (hL : ∀ d ∈ L, d < 10) :
    digitsFold ((L.reverse).map Nat.digitChar) = Nat.ofDigits 10 L := by
  induction L with
  | nil => simp [digitsFold, Nat.ofDigits]
  | cons d T ih =>
    have hd : d < 10 := hL d (List.mem_cons_self d T)
    have hT : ∀ x ∈ T, x < 10 := fun x hx => hL x (List.mem_cons_of_mem d hx)
    unfold digitsFold at ih ⊢
    rw [List.reverse_cons, List.map_append, List.foldl_append]
    simp only [List.map_cons, List.map_nil, List.foldl_cons, List.foldl_nil]
    rw [ih hT, Nat.ofDigits_cons, (digitChar_facts d hd).1]
    ring

theorem foldl_step_replicate_zero : ∀ k : Nat,
    (List.replicate k (Nat.digitChar 0)).foldl
      (fun a c => 10 * a + (c.toNat - 48)) 0 = 0 := by
  intro k
  induction k with
  | zero => rfl
  | succ k ih => rw [List.replicate_succ, List.foldl_cons]; exact ih

theorem parseNatStr_pad4 (y : Nat) : parseNatStr (pad4 y) = some y := by
  show digitsValOpt ((pad4Digits y).map Nat.digitChar) = some y
  have hlt := pad4Digits_lt y
  have hlen : 1 ≤ (pad4Digits y).length := by
    unfold pad4Digits
    rw [List.length_append, List.length_replicate]
    omega
  have hne : ((pad4Digits y).map Nat.digitChar).isEmpty = false := by
    cases hl : (pad4Digits y).map Nat.digitChar with
    | nil =>
      exfalso
      have h0 : (pad4Digits y).length = 0 := by
        have := congrArg List.length hl
        simpa using this
      omega
    | cons c cs => rfl
  have hdig : ((pad4Digits y).map Nat.digitChar).all (·.isDigit) = true := by
    rw [List.all_eq_true]
    intro c hc
    obtain ⟨d, hd, hcd⟩ := List.mem_map.mp hc
    rw [← hcd]
    exact (digitChar_facts d (hlt d hd)).2.1
  unfold digitsValOpt
  rw [hne, hdig]
  simp only [Bool.not_false, Bool.true_and, if_true]
  congr 1
  unfold pad4Digits
  rw [List.map_append, List.map_replicate]
  unfold digitsFold
  rw [List.foldl_append, foldl_step_replicate_zero]
  have hfold := digitsFold_rev_map (Nat.digits 10 y) fun d hd =>
    Nat.digits_lt_base (by norm_num) hd
  unfold digitsFold at hfold
  unfold natDigitsBE
  rw [hfold, Nat.ofDigits_digits]

theorem splitDashAux_no_dash :
    ∀ (cs acc : List Char), (∀ c ∈ cs, ¬(c = '-')) →
      splitDashAux cs acc = [acc.reverse ++ cs] := by
  intro cs
  induction cs with
  | nil => intro acc _; simp [splitDashAux]
  | cons c rest ih =>
    intro acc h
    have hc : ¬(c = '-') := h c (List.mem_cons_self c rest)
    rw [splitDashAux, if_neg hc, ih (c :: acc) (fun x hx => h x (List.mem_cons_of_mem c hx))]
    simp

theorem splitDashAux_with_dash :
    ∀ (xs ys acc : List Char), (∀ c ∈ xs, ¬(c = '-')) →
      splitDashAux (xs ++ '-' :: ys) acc =
        (acc.reverse ++ xs) :: splitDashAux ys [] := by
  intro xs
  induction xs with
  | nil =>
    intro ys acc _
    simp only [List.nil_append, List.append_nil]
    rw [splitDashAux, if_pos rfl]
  | cons x xs ih =>
    intro ys acc h
    have hx : ¬(x = '-') := h x (List.mem_cons_self x xs)
    rw [List.cons_append, splitDashAux, if_neg hx,
      ih ys (x :: acc) (fun c hc => h c (List.mem_cons_of_mem x hc))]
    simp

theorem exists_four_of_len {α : Type} (l : List α) (h : l.length = 4) :
    ∃ a b c d, l = [a, b, c, d] := by
  cases l with
  | nil => simp at h
  | cons a l1 =>
    cases l1 with
    | nil => simp at h
    | cons b l2 =>
      cases l2 with
      | nil => simp at h
      | cons c l3 =>
        cases l3 with
        | nil => simp at h
        | cons d l4 =>
          cases l4 with
          | nil => exact ⟨a, b, c, d, rfl⟩
          | cons e l5 => simp at h

theorem pad4_no_dash (y : Nat) : ∀ c ∈ (pad4 y).data, ¬(c = '-') := by
  intro c hc
  obtain ⟨d, hd, hcd⟩ := List.mem_map.mp hc
  rw [← hcd]
  exact (digitChar_facts d (pad4Digits_lt y d hd)).2.2

theorem digit_ne_dash (c : Char) (h : c.isDigit = true) : ¬(c = '-') := by
  intro he
  subst he
  cases h

theorem c9_core (y : Nat) (mm : String) (hy : y ≤ 9999)
    (h1 : mm.data.length = 2) (h2 : ∀ c ∈ mm.data, c.isDigit = true)
    (h3 : 1 ≤ digitsFold mm.data) (h4 : digitsFold mm.data ≤ 12)
    (h5 : (monthTable.map Prod.snd).getD (digitsFold mm.data - 1) "" = mm) :
    isYYYYMM (mkYearMonth y mm) = true ∧
    splitYearMonth (mkYearMonth y mm) = [pad4 y, mm] ∧
    parseNatStr (pad4 y) = some y ∧
    ∃ m : Nat, parseNatStr mm = some m ∧ 1 ≤ m ∧ m ≤ 12 ∧
      (monthTable.map Prod.snd).getD (m - 1) "" = mm := by
  obtain ⟨m1, m2, hmm2⟩ : ∃ m1 m2, mm.data = [m1, m2] := by
    cases hl : mm.data with
    | nil => rw [hl] at h1; simp at h1
    | cons a l1 =>
      cases l1 with
      | nil => rw [hl] at h1; simp at h1
      | cons b l2 =>
        cases l2 with
        | nil => exact ⟨a, b, rfl⟩
        | cons c l3 => rw [hl] at h1; simp at h1
  obtain ⟨d1, d2, d3, d4, hd4⟩ :=
    exists_four_of_len (pad4Digits y) (pad4Digits_length y hy)
  have hdlt : d1 < 10 ∧ d2 < 10 ∧ d3 < 10 ∧ d4 < 10 := by
    have h := pad4Digits_lt y
    rw [hd4] at h
    exact ⟨h d1 (by simp), h d2 (by simp), h d3 (by simp), h d4 (by simp)⟩
  have hpad : (pad4 y).data = [Nat.digitChar d1, Nat.digitChar d2,
      Nat.digitChar d3, Nat.digitChar d4] := by
    show ((pad4Digits y).map Nat.digitChar) = _
    rw [hd4]
    rfl
  have hdata2 : (mkYearMonth y mm).data = (pad4 y).data ++ '-' :: mm.data := by
    unfold mkYearMonth
    rw [String.data_append, String.data_append]
    simp
  refine ⟨?_, ?_, parseNatStr_pad4 y, ?_⟩
  · have hdata : (mkYearMonth y mm).data = [Nat.digitChar d1, Nat.digitChar d2,
        Nat.digitChar d3, Nat.digitChar d4, '-', m1, m2] := by
      rw [hdata2, hpad, hmm2]
      rfl
    have heta : mkYearMonth y mm = String.mk [Nat.digitChar d1, Nat.digitChar d2,
        Nat.digitChar d3, Nat.digitChar d4, '-', m1, m2] := by
      rw [← hdata]
    rw [heta]
    show ((Nat.digitChar d1).isDigit && (Nat.digitChar d2).isDigit &&
      (Nat.digitChar d3).isDigit && (Nat.digitChar d4).isDigit && ('-' == '-') &&
      m1.isDigit && m2.isDigit &&
      decide (1 ≤ digitsFold [m1, m2]) && decide (digitsFold [m1, m2] ≤ 12)) = true
    rw [hmm2] at h2 h3 h4
    rw [(digitChar_facts d1 hdlt.1).2.1, (digitChar_facts d2 hdlt.2.1).2.1,
      (digitChar_facts d3 hdlt.2.2.1).2.1, (digitChar_facts d4 hdlt.2.2.2).2.1,
      h2 m1 (by simp), h2 m2 (by simp)]
    simp [h3, h4]
  · unfold splitYearMonth
    rw [hdata2]
    rw [splitDashAux_with_dash _ _ _ (pad4_no_dash y)]
    rw [splitDashAux_no_dash _ _ (fun c hc => digit_ne_dash c (h2 c hc))]
    simp
  · refine ⟨digitsFold mm.data, ?_, h3, h4, h5⟩
    unfold parseNatStr digitsValOpt
    rw [hmm2]
    have hd1 : m1.isDigit = true := h2 m1 (by rw [hmm2]; simp)
    have hd2 : m2.isDigit = true := h2 m2 (by rw [hmm2]; simp)
    simp [hd1, hd2]

/-- C9: every canonical column key is `%04d`-year + "-" + table month
code, matches `YYYY-MM` with `MM` in 01..12, and the emitter's split on
"-" followed by integer conversion recovers the year and a month integer
in 1..12 that indexes the very table entry the key was built from. -/
theorem c9_month_round_trip (y : Nat) (s mm : String)
    (hy : y ≤ 9999) (hmm : normalize_month (some s) = some mm) :
    isYYYYMM (mkYearMonth y mm) = true ∧
    splitYearMonth (mkYearMonth y mm) = [pad4 y, mm] ∧
    parseNatStr (pad4 y) = some y ∧
    ∃ m : Nat, parseNatStr mm = some m ∧ 1 ≤ m ∧ m ≤ 12 ∧
      (monthTable.map Prod.snd).getD (m - 1) "" = mm := by
  have hmem : mm ∈ monthTable.map Prod.snd :=
    lookup_mem_values monthTable (pyStrip s) mm hmm
  simp only [monthTable, List.map_cons, List.map_nil, List.mem_cons,
    List.not_mem_nil, or_false] at hmem
  rcases hmem with rfl | rfl | rfl | rfl | rfl | rfl | rfl | rfl | rfl | rfl | rfl | rfl <;>
    exact c9_core y _ hy (by decide) (by decide) (by decide) (by decide) (by decide)

/-- Witness for C9 at year 2020 and month "Mar". -/
theorem c9_month_round_trip_witness :
    isYYYYMM (mkYearMonth 2020 "03") = true ∧
    splitYearMonth (mkYearMonth 2020 "03") = [pad4 2020, "03"] ∧
    parseNatStr (pad4 2020) = some 2020 ∧
    ∃ m : Nat, parseNatStr "03" = some m ∧ 1 ≤ m ∧ m ≤ 12 ∧
      (monthTable.map Prod.snd).getD (m - 1) "" = "03" :=
  c9_month_round_trip 2020 "Mar" "03" (by omega) (by decide)

/-- One untyped cell of a RawGrid; numeric cells are modelled as the
integers these sheets carry. -/
inductive Cell where
  | blank : Cell
  | str : String → Cell
  | num : Int → Cell
deriving DecidableEq

/-- Python's `int(s)` on a string: strip whitespace, optional sign,
decimal digits. -/
def pyIntOfString (s : String) : Option Int :=
  match (pyStrip s).data with
  | '-' :: rest => (digitsValOpt rest).map (fun n => -(n : Int))
  | '+' :: rest => (digitsValOpt rest).map (fun n => (n : Int))
  | cs => (digitsValOpt cs).map (fun n => (n : Int))

/-- `is_year(x)` of detect_header_structure /
_detect_header_structure_asylum: `int(x)` parses and lies in
[1900, 2100]; blanks (NaN) and unparseable strings are not years. -/
def is_year : Cell → Bool
  | .blank => false
  | .num n => decide (1900 ≤ n ∧ n ≤ 2100)
  | .str s =>
    match pyIntOfString s with
    | some n => decide (1900 ≤ n ∧ n ≤ 2100)
    | none => false

/-- `sum(1 for col_idx in range(ncols) if is_year(row.iloc[col_idx]))`. -/
def countYears (row : List Cell) : Nat := (row.filter is_year).length

/-- The first column index holding a year value (`first_year_col`). -/
def firstYearIdx (row : List Cell) : Option Nat := row.findIdx? is_year

/-- The scan loop shared by `detect_header_structure` (PR: threshold 5,
month-row offset 2) and `_detect_header_structure_asylum` (threshold 3,
offset 1): `i` is the current row index, the budget counts remaining
scannable rows; rows without a year cell are skipped, the first row with
at least `thresh` year cells wins, `none` models the raised error. -/
def detectFrom (thresh off : Nat) :
    List (List Cell) → Nat → Nat → Option (Nat × Nat × Nat)
  | [], _, _ => none
  | _ :: _, 0, _ => none
  | row :: rest, budget + 1, i =>
    match firstYearIdx row with
    | none => detectFrom thresh off rest budget (i + 1)
    | some c =>
      if thresh ≤ countYears row then some (i, i + off, c)
      else detectFrom thresh off rest budget (i + 1)

/-- `detect_header_structure` (parameterized by family threshold, month
offset and scan budget), returning `(year_row, month_row, first_data_col)`
or `none` for the raised error. -/
def detect_header_structure (thresh off maxScan : Nat)
    (raw : List (List Cell)) : Option (Nat × Nat × Nat) :=
  detectFrom thresh off raw maxScan 0

/-- `_is_month_abbrev(x)` of extract_study.py:
`str(x).strip() in _MONTH_MAP`. -/
def isMonthCell : Cell → Bool
  | .blank => false
  | .num _ => false
  | .str s => (monthTable.lookup (pyStrip s)).isSome

/-- `sum(_is_month_abbrev(v) for v in row)`. -/
def countMonths (row : List Cell) : Nat := (row.filter isMonthCell).length

/-- First `j` in `[s, s + len)` with `p j`; models both
`min(year_candidates)` over the scan order and the first-match month
loop of `detect_year_and_month_rows`. -/
def findFirstFrom (p : Nat → Bool) : Nat → Nat → Option Nat
  | _, 0 => none
  | s, len + 1 => if p s then some s else findFirstFrom p (s + 1) len

/-- `detect_year_and_month_rows` of extract_study.py: the earliest row
within the budget with at least 4 year-like cells, then the first later
row within the budget with at least 6 month abbreviations; `none` models
the raised error (in either phase). -/
def detect_year_and_month_rows (maxScan : Nat) (raw : List (List Cell)) :
    Option (Nat × Nat) :=
  let n := min maxScan raw.length
  match findFirstFrom (fun r => decide (4 ≤ countYears (raw.getD r []))) 0 n with
  | none => none
  | some y =>
    match findFirstFrom (fun r => decide (6 ≤ countMonths (raw.getD r [])))
        (y + 1) (n - (y + 1)) with
    | none => none
    | some m => some (y, m)

theorem countYears_zero_of_none (row : List Cell)
    (h : firstYearIdx row = none) : countYears row = 0 := by
  unfold countYears
  rw [List.filter_eq_nil_iff.mpr]
  · rfl
  · intro a ha
    have := List.findIdx?_eq_none_iff.mp h a ha
    simp [this]

theorem detectFrom_cons_none (thresh off : Nat) (row : List Cell)
    (rest : List (List Cell)) (b i : Nat) (hf : firstYearIdx row = none) :
    detectFrom thresh off (row :: rest) (b + 1) i =
      detectFrom thresh off rest b (i + 1) := by
  simp only [detectFrom, hf]

theorem detectFrom_cons_some (thresh off : Nat) (row : List Cell)
    (rest : List (List Cell)) (b i c0 : Nat) (hf : firstYearIdx row = some c0) :
    detectFrom thresh off (row :: rest) (b + 1) i =
      if thresh ≤ countYears row then some (i, i + off, c0)
      else detectFrom thresh off rest b (i + 1) := by
  simp only [detectFrom, hf]

theorem detectFrom_eq_none (thresh off : Nat) (hth : 1 ≤ thresh) :
    ∀ (l : List (List Cell)) (b i : Nat),
      detectFrom thresh off l b i = none ↔
        ∀ p, p < b → p < l.length → countYears (l.getD p []) < thresh := by
  intro l
  induction l with
  | nil =>
    intro b i
    constructor
    · intro _ p _ hp; simp at hp
    · intro _; cases b <;> rfl
  | cons row rest ih =>
    intro b i
    cases b with
    | zero =>
      constructor
      · intro _ p hp _; omega
      · intro _; rfl
    | succ b' =>
      cases hf : firstYearIdx row with
      | none =>
        rw [detectFrom_cons_none thresh off row rest b' i hf]
        have hcz : countYears row = 0 := countYears_zero_of_none row hf
        rw [ih b' (i + 1)]
        constructor
        · intro h p hp hpl
          cases p with
          | zero => simp only [List.getD_cons_zero]; omega
          | succ p' =>
            simp only [List.getD_cons_succ]
            exact h p' (by omega) (by simpa using Nat.lt_of_succ_lt_succ hpl)
        · intro h p hp hpl
          have := h (p + 1) (by omega) (by simp only [List.length_cons]; omega)
          simpa using this
      | some c0 =>
        rw [detectFrom_cons_some thresh off row rest b' i c0 hf]
        by_cases hq : thresh ≤ countYears row
        · rw [if_pos hq]
          constructor
          · intro h; cases h
          · intro h
            exfalso
            have := h 0 (by omega) (by simp)
            simp only [List.getD_cons_zero] at this
            omega
        · rw [if_neg hq]
          rw [ih b' (i + 1)]
          constructor
          · intro h p hp hpl
            cases p with
            | zero => simp only [List.getD_cons_zero]; omega
            | succ p' =>
              simp only [List.getD_cons_succ]
              exact h p' (by omega) (by simpa using Nat.lt_of_succ_lt_succ hpl)
          · intro h p hp hpl
            have := h (p + 1) (by omega) (by simp only [List.length_cons]; omega)
            simpa using this

theorem detectFrom_eq_some (thresh off : Nat) :
    ∀ (l : List (List Cell)) (b i y m c : Nat), 1 ≤ thresh →
      detectFrom thresh off l b i = some (y, m, c) →
      ∃ p, p < b ∧ p < l.length ∧ y = i + p ∧
        thresh ≤ countYears (l.getD p []) ∧
        (∀ q, q < p → countYears (l.getD q []) < thresh) ∧
        m = y + off ∧ firstYearIdx (l.getD p []) = some c := by
  intro l
  induction l with
  | nil => intro b i y m c _ h; cases b <;> simp [detectFrom] at h
  | cons row rest ih =>
    intro b i y m c hth h
    cases b with
    | zero => simp [detectFrom] at h
    | succ b' =>
      cases hf : firstYearIdx row with
      | none =>
        rw [detectFrom_cons_none thresh off row rest b' i hf] at h
        obtain ⟨p, h1, h2, h3, h4, h5, h6, h7⟩ := ih b' (i + 1) y m c hth h
        have hcz : countYears row = 0 := countYears_zero_of_none row hf
        refine ⟨p + 1, by omega, by simp only [List.length_cons]; omega, by omega,
          by simpa using h4, ?_, h6, by simpa using h7⟩
        intro q hq
        cases q with
        | zero => simp only [List.getD_cons_zero]; omega
        | succ q' =>
          simp only [List.getD_cons_succ]
          exact h5 q' (by omega)
      | some c0 =>
        rw [detectFrom_cons_some thresh off row rest b' i c0 hf] at h
        by_cases hq : thresh ≤ countYears row
        · rw [if_pos hq] at h
          have hy : i = y ∧ i + off = m ∧ c0 = c := by
            simpa using h
          obtain ⟨hy1, hy2, hy3⟩ := hy
          refine ⟨0, by omega, by simp, by omega, ?_, ?_, by omega, ?_⟩
          · simp only [List.getD_cons_zero]; omega
          · intro q hq'; omega
          · simp only [List.getD_cons_zero]
            rw [hf, hy3]
        · rw [if_neg hq] at h
          obtain ⟨p, h1, h2, h3, h4, h5, h6, h7⟩ := ih b' (i + 1) y m c hth h
          refine ⟨p + 1, by omega, by simp only [List.length_cons]; omega, by omega,
            by simpa using h4, ?_, h6, by simpa using h7⟩
          intro q hq'
          cases q with
          | zero => simp only [List.getD_cons_zero]; omega
          | succ q' =>
            simp only [List.getD_cons_succ]
            exact h5 q' (by omega)

theorem findFirstFrom_eq_some (p : Nat → Bool) :
    ∀ (len s y : Nat), findFirstFrom p s len = some y ↔
      (s ≤ y ∧ y < s + len ∧ p y = true ∧
       ∀ j, s ≤ j → j < y → p j = false) := by
  intro len
  induction len with
  | zero =>
    intro s y
    constructor
    · intro h; cases h
    · rintro ⟨h1, h2, _, _⟩; omega
  | succ len ih =>
    intro s y
    simp only [findFirstFrom]
    by_cases hp : p s = true
    · rw [if_pos hp]
      constructor
      · intro h
        cases h
        exact ⟨Nat.le_refl s, by omega, hp, fun j h1 h2 => by omega⟩
      · rintro ⟨h1, h2, h3, h4⟩
        by_cases hys : y = s
        · rw [hys]
        · exfalso
          have := h4 s (Nat.le_refl s) (by omega)
          rw [hp] at this
          cases this
    · rw [if_neg hp]
      rw [ih (s + 1) y]
      simp only [Bool.not_eq_true] at hp
      constructor
      · rintro ⟨h1, h2, h3, h4⟩
        refine ⟨by omega, by omega, h3, fun j hj1 hj2 => ?_⟩
        rcases Nat.eq_or_lt_of_le hj1 with he | hl
        · rw [← he]; exact hp
        · exact h4 j hl hj2
      · rintro ⟨h1, h2, h3, h4⟩
        have hys : ¬(y = s) := by
          intro he
          rw [he] at h3
          rw [hp] at h3
          cases h3
        exact ⟨by omega, by omega, h3, fun j hj1 hj2 => h4 j (by omega) hj2⟩

theorem findFirstFrom_eq_none (p : Nat → Bool) :
    ∀ (len s : Nat), findFirstFrom p s len = none ↔
      ∀ j, s ≤ j → j < s + len → p j = false := by
  intro len
  induction len with
  | zero =>
    intro s
    constructor
    · intro _ j h1 h2; omega
    · intro _; rfl
  | succ len ih =>
    intro s
    simp only [findFirstFrom]
    by_cases hp : p s = true
    · rw [if_pos hp]
      constructor
      · intro h; cases h
      · intro h
        have := h s (Nat.le_refl s) (by omega)
        rw [hp] at this
        cases this
    · rw [if_neg hp]
      rw [ih (s + 1)]
      simp only [Bool.not_eq_true] at hp
      constructor
      · intro h j hj1 hj2
        rcases Nat.eq_or_lt_of_le hj1 with he | hl
        · rw [← he]; exact hp
        · exact h j hl (by omega)
      · intro h j hj1 hj2
        exact h j (by omega) (by omega)

theorem studyDetect_some_iff (maxScan : Nat) (raw : List (List Cell)) (y m : Nat) :
    detect_year_and_month_rows maxScan raw = some (y, m) ↔
      (y < min maxScan raw.length ∧ 4 ≤ countYears (raw.getD y []) ∧
       (∀ j, j < y → countYears (raw.getD j []) < 4) ∧
       y < m ∧ m < min maxScan raw.length ∧ 6 ≤ countMonths (raw.getD m []) ∧
       ∀ j, y < j → j < m → countMonths (raw.getD j []) < 6) := by
  unfold detect_year_and_month_rows
  cases h1 : findFirstFrom (fun r => decide (4 ≤ countYears (raw.getD r []))) 0
      (min maxScan raw.length) with
  | none =>
    simp only [h1]
    constructor
    · intro h; cases h
    · rintro ⟨hy1, hy2, _, _, _, _, _⟩
      exfalso
      have := (findFirstFrom_eq_none _ (min maxScan raw.length) 0).mp h1 y
        (by omega) (by omega)
      rw [decide_eq_false_iff_not] at this
      omega
  | some y0 =>
    simp only [h1]
    obtain ⟨_, hy0lt, hy0p, hy0min⟩ :=
      (findFirstFrom_eq_some _ (min maxScan raw.length) 0 y0).mp h1
    rw [decide_eq_true_eq] at hy0p
    cases h2 : findFirstFrom (fun r => decide (6 ≤ countMonths (raw.getD r [])))
        (y0 + 1) (min maxScan raw.length - (y0 + 1)) with
    | none =>
      simp only [h2]
      constructor
      · intro h; cases h
      · rintro ⟨hy1, hy2, hy3, hy4, hy5, hy6, hy7⟩
        exfalso
        have hyy : y0 = y := by
          by_contra hne
          rcases Nat.lt_or_ge y0 y with hl | hg
          · have := hy3 y0 hl; omega
          · have hg' : y < y0 := by omega
            have := hy0min y (by omega) hg'
            rw [decide_eq_false_iff_not] at this
            omega
        subst hyy
        have := (findFirstFrom_eq_none _ _ _).mp h2 m (by omega) (by omega)
        rw [decide_eq_false_iff_not] at this
        omega
    | some m0 =>
      simp only [h2]
      obtain ⟨hm0ge, hm0lt, hm0p, hm0min⟩ :=
        (findFirstFrom_eq_some _ _ _ m0).mp h2
      rw [decide_eq_true_eq] at hm0p
      constructor
      · intro h
        have hym : y0 = y ∧ m0 = m := by
          have := Option.some.inj h
          exact ⟨congrArg Prod.fst this, congrArg Prod.snd this⟩
        obtain ⟨hyy, hmm⟩ := hym
        subst hyy
        subst hmm
        refine ⟨by omega, hy0p, ?_, by omega, by omega, hm0p, ?_⟩
        · intro j hj
          have := hy0min j (by omega) hj
          rw [decide_eq_false_iff_not] at this
          omega
        · intro j hj1 hj2
          have := hm0min j (by omega) hj2
          rw [decide_eq_false_iff_not] at this
          omega
      · rintro ⟨hy1, hy2, hy3, hy4, hy5, hy6, hy7⟩
        have hyy : y0 = y := by
          by_contra hne
          rcases Nat.lt_or_ge y0 y with hl | hg
          · have := hy3 y0 hl; omega
          · have hg' : y < y0 := by omega
            have := hy0min y (by omega) hg'
            rw [decide_eq_false_iff_not] at this
            omega
        subst hyy
        have hmm : m0 = m := by
          by_contra hne
          rcases Nat.lt_or_ge m0 m with hl | hg
          · have := hy7 m0 (by omega) hl; omega
          · have hg' : m < m0 := by omega
            have := hm0min m (by omega) hg'
            rw [decide_eq_false_iff_not] at this
            omega
        subst hmm
        rfl

theorem studyDetect_none_iff (maxScan : Nat) (raw : List (List Cell)) :
    detect_year_and_month_rows maxScan raw = none ↔
      ((∀ j, j < min maxScan raw.length → countYears (raw.getD j []) < 4) ∨
       (∃ y, y < min maxScan raw.length ∧ 4 ≤ countYears (raw.getD y []) ∧
         (∀ j, j < y → countYears (raw.getD j []) < 4) ∧
         ∀ j, y < j → j < min maxScan raw.length →
           countMonths (raw.getD j []) < 6)) := by
  unfold detect_year_and_month_rows
  cases h1 : findFirstFrom (fun r => decide (4 ≤ countYears (raw.getD r []))) 0
      (min maxScan raw.length) with
  | none =>
    simp only [h1]
    constructor
    · intro _
      refine Or.inl fun j hj => ?_
      have := (findFirstFrom_eq_none _ (min maxScan raw.length) 0).mp h1 j
        (by omega) (by omega)
      rw [decide_eq_false_iff_not] at this
      omega
    · intro _; trivial
  | some y0 =>
    simp only [h1]
    obtain ⟨_, hy0lt, hy0p, hy0min⟩ :=
      (findFirstFrom_eq_some _ (min maxScan raw.length) 0 y0).mp h1
    rw [decide_eq_true_eq] at hy0p
    cases h2 : findFirstFrom (fun r => decide (6 ≤ countMonths (raw.getD r [])))
        (y0 + 1) (min maxScan raw.length - (y0 + 1)) with
    | none =>
      simp only [h2]
      constructor
      · intro _
        refine Or.inr ⟨y0, by omega, hy0p, ?_, ?_⟩
        · intro j hj
          have := hy0min j (by omega) hj
          rw [decide_eq_false_iff_not] at this
          omega
        · intro j hj1 hj2
          have := (findFirstFrom_eq_none _ _ _).mp h2 j (by omega) (by omega)
          rw [decide_eq_false_iff_not] at this
          omega
      · intro _; trivial
    | some m0 =>
      simp only [h2]
      obtain ⟨hm0ge, hm0lt, hm0p, hm0min⟩ :=
        (findFirstFrom_eq_some _ _ _ m0).mp h2
      rw [decide_eq_true_eq] at hm0p
      constructor
      · intro h; cases h
      · intro h
        exfalso
        rcases h with h | ⟨y, hy1, hy2, hy3, hy4⟩
        · exact absurd hy0p (by have := h y0 (by omega); omega)
        · have hyy : y0 = y := by
            by_contra hne
            rcases Nat.lt_or_ge y0 y with hl | hg
            · have := hy3 y0 hl; omega
            · have hg' : y < y0 := by omega
              have := hy0min y (by omega) hg'
              rw [decide_eq_false_iff_not] at this
              omega
          subst hyy
          exact absurd hm0p (by have := hy4 m0 (by omega) (by omega); omega)

/-- C7 (amended): the PR/asylum locator returns the layout derived from
the earliest scanned row with at least the family threshold (5 or 3) of
year cells — first qualifying row wins, the month row sits at the fixed
family offset, the first data column is the row's first year cell — and
raises exactly when no scanned row qualifies; the study locator uses
threshold 4 and additionally requires a row with at least 6 month
abbreviations after the earliest qualifying year row within the budget,
raising also when no such month row exists. -/
theorem c7_header_locator :
    (∀ (thresh off maxScan : Nat) (raw : List (List Cell)) (y m c : Nat),
      1 ≤ thresh →
      detect_header_structure thresh off maxScan raw = some (y, m, c) →
        y < maxScan ∧ y < raw.length ∧ thresh ≤ countYears (raw.getD y []) ∧
        (∀ j, j < y → countYears (raw.getD j []) < thresh) ∧
        m = y + off ∧ firstYearIdx (raw.getD y []) = some c) ∧
    (∀ (thresh off maxScan : Nat) (raw : List (List Cell)), 1 ≤ thresh →
      (detect_header_structure thresh off maxScan raw = none ↔
        ∀ j, j < maxScan → j < raw.length →
          countYears (raw.getD j []) < thresh)) ∧
    (∀ (maxScan : Nat) (raw : List (List Cell)) (y m : Nat),
      detect_year_and_month_rows maxScan raw = some (y, m) ↔
        (y < min maxScan raw.length ∧ 4 ≤ countYears (raw.getD y []) ∧
         (∀ j, j < y → countYears (raw.getD j []) < 4) ∧
         y < m ∧ m < min maxScan raw.length ∧ 6 ≤ countMonths (raw.getD m []) ∧
         ∀ j, y < j → j < m → countMonths (raw.getD j []) < 6)) ∧
    (∀ (maxScan : Nat) (raw : List (List Cell)),
      detect_year_and_month_rows maxScan raw = none ↔
        ((∀ j, j < min maxScan raw.length → countYears (raw.getD j []) < 4) ∨
         (∃ y, y < min maxScan raw.length ∧ 4 ≤ countYears (raw.getD y []) ∧
           (∀ j, j < y → countYears (raw.getD j []) < 4) ∧
           ∀ j, y < j → j < min maxScan raw.length →
             countMonths (raw.getD j []) < 6))) := by
  refine ⟨?_, ?_, studyDetect_some_iff, studyDetect_none_iff⟩
  · intro thresh off maxScan raw y m c hth h
    obtain ⟨p, h1, h2, h3, h4, h5, h6, h7⟩ :=
      detectFrom_eq_some thresh off raw maxScan 0 y m c hth h
    have hyp : y = p := by omega
    subst hyp
    exact ⟨h1, h2, h4, fun j hj => h5 j hj, h6, h7⟩
  · intro thresh off maxScan raw hth
    exact detectFrom_eq_none thresh off hth raw maxScan 0

/-- Counterexample to C7 as stated: the study locator returns a layout
from a grid whose only year row has 4 year cells (so no scanned row meets
a minimum of 5), yet raises on the same year row when the month row is
missing even though that row meets a minimum of 3 — the study family's
threshold is 4, and qualification also requires the month row. -/
theorem c7_header_locator_counterexample :
    countYears [Cell.str "2001", Cell.str "2002", Cell.str "2003",
      Cell.str "2004"] = 4 ∧
    detect_year_and_month_rows 10
      [[Cell.str "2001", Cell.str "2002", Cell.str "2003", Cell.str "2004"],
       [Cell.str "Jan", Cell.str "Feb", Cell.str "Mar", Cell.str "Apr",
        Cell.str "May", Cell.str "Jun"]] = some (0, 1) ∧
    detect_year_and_month_rows 10
      [[Cell.str "2001", Cell.str "2002", Cell.str "2003",
        Cell.str "2004"]] = none := by
  refine ⟨by decide, by decide, by decide⟩

/-- Witness for C7: concrete asylum-family and PR-family detections and a
concrete study-family detection and failure. -/
theorem c7_header_locator_witness :
    3 ≤ countYears ([[Cell.num 2019, Cell.num 2020, Cell.num 2021]].getD 0 []) ∧
    detect_header_structure 5 2 12 [[Cell.str "x"]] = none ∧
    detect_year_and_month_rows 10
      [[Cell.num 2015, Cell.num 2016, Cell.num 2017, Cell.num 2018],
       [Cell.str "Jan", Cell.str "Feb", Cell.str "Mar", Cell.str "Apr",
        Cell.str "May", Cell.str "Jun"]] = some (0, 1) ∧
    detect_year_and_month_rows 10 [[Cell.str "x"]] = none := by
  refine ⟨?_, ?_, ?_, ?_⟩
  · exact (c7_header_locator.1 3 1 12 [[Cell.num 2019, Cell.num 2020,
      Cell.num 2021]] 0 1 0 (by omega) (by decide)).2.2.1
  · exact (c7_header_locator.2.1 5 2 12 [[Cell.str "x"]] (by omega)).mpr
      (by decide)
  · exact (c7_header_locator.2.2.1 10 _ 0 1).mpr
      ⟨by decide, by decide, by omega, by omega, by decide, by decide,
       fun j h1 h2 => by omega⟩
  · exact (c7_header_locator.2.2.2 10 [[Cell.str "x"]]).mpr (Or.inl (by decide))

end CanImm
